import Mathlib

/-!
# Verification of the gobfy Brainfuck interpreter core

Shallow embedding of the interpreter from `main.go`: the `Processor`
state (tape, data pointer, loop-closure stack, instruction buffer and
pointer), the per-instruction handlers, and the fuel-indexed dispatch
loop.  Go bytes are modelled as `Nat` with explicit `% 256` where the
code wraps; `log.Fatal` aborts are modelled as `Except ProcError`;
stdin is a list of pending input bytes and stdout a list of emitted
bytes.
-/

set_option maxRecDepth 8192

namespace Gobfy

/-- Instruction byte for `>`. -/
def InstMoveRight : Nat := 62

/-- Instruction byte for `<`. -/
def InstMoveLeft : Nat := 60

/-- Instruction byte for `+`. -/
def InstIncrement : Nat := 43

/-- Instruction byte for `-`. -/
def InstDecrement : Nat := 45

/-- Instruction byte for `.`. -/
def InstOutput : Nat := 46

/-- Instruction byte for `,`. -/
def InstInput : Nat := 44

/-- Instruction byte for `[`. -/
def InstLoopStart : Nat := 91

/-- Instruction byte for `]`. -/
def InstLoopEnd : Nat := 93

/-- Page size used by the tape, `DefaultPageSize = 1024` in the source. -/
def DefaultPageSize : Nat := 1024

/-- A loop frame (`Closure` in the source): whether the body is
suppressed, whether this is the root sentinel, and the instruction
pointer of the `[` that opened it. -/
structure Closure where
  skip : Bool
  root : Bool
  start : Nat
deriving Repr, DecidableEq

/-- The interpreter state (`Processor` in the source).  `data` is the
tape of byte cells, `stdin` the bytes not yet consumed by `,`, and
`output` the bytes written so far by `.` (stdout). -/
structure Processor where
  data : List Nat
  dataPointer : Nat
  stdin : List Nat
  instructionPointer : Nat
  instructionBuffer : List Nat
  closures : List Closure
  output : List Nat
deriving Repr, DecidableEq

/-- The fatal errors the source raises through `log.Fatal`. -/
inductive ProcError where
  | outOfBounds
  | unbalancedLoop
  | unterminatedLoop
  | ioError
deriving Repr, DecidableEq

deriving instance DecidableEq for Except

/-- `NewProcessor`: one zeroed page of tape, cursor 0, the root sentinel
closure, an empty instruction buffer.  The pending stdin bytes are a
parameter (the source wires up `os.Stdin`; `Stdin` injects any reader). -/
def NewProcessor (input : List Nat) : Processor :=
  { data := List.replicate DefaultPageSize 0
    dataPointer := 0
    stdin := input
    instructionPointer := 0
    instructionBuffer := []
    closures := [{ skip := false, root := true, start := 0 }]
    output := [] }

/-- The top closure, `p.closures[0]` in the source.  The stack is never
empty in any reachable state (the root sentinel is never popped), so the
default is never consulted. -/
def topClosure (p : Processor) : Closure :=
  p.closures.headD { skip := false, root := true, start := 0 }

/-- The skip gate `p.closures[0].Skip` consulted by every effectful
instruction. -/
def topSkip (p : Processor) : Bool :=
  (topClosure p).skip

/-- `Processor.Current`: the cell under the data pointer. -/
def Current (p : Processor) : Nat :=
  p.data.getD p.dataPointer 0

/-- `Processor.ensureDataSize`: when the pointer has run off the tape,
append zero bytes up to `1 + nextPagedSize - len(p.Data)` where
`nextPagedSize = (1 + DataPointer/DefaultPageSize) * DefaultPageSize`. -/
def ensureDataSize (p : Processor) : Processor :=
  if p.data.length ≤ p.dataPointer then
    let nextPagedSize := (1 + p.dataPointer / DefaultPageSize) * DefaultPageSize
    { p with data := p.data ++ List.replicate (1 + nextPagedSize - p.data.length) 0 }
  else p

/-- `Processor.Load`: install a new instruction buffer and reset the
instruction pointer; nothing else is touched. -/
def Load (p : Processor) (instructions : List Nat) : Processor :=
  { p with instructionBuffer := instructions, instructionPointer := 0 }

/-- `Processor.Increment`: gated on skip; otherwise `Data[DataPointer]++`
with byte wraparound. -/
def Increment (p : Processor) : Processor :=
  if topSkip p then p
  else { p with data := p.data.set p.dataPointer ((Current p + 1) % 256) }

/-- `Processor.Decrement`: gated on skip; otherwise `Data[DataPointer]--`
with byte wraparound (`v - 1` on bytes is `(v + 255) % 256`). -/
def Decrement (p : Processor) : Processor :=
  if topSkip p then p
  else { p with data := p.data.set p.dataPointer ((Current p + 255) % 256) }

/-- `Processor.MoveRight`: gated on skip; otherwise `DataPointer++`
followed by `ensureDataSize`. -/
def MoveRight (p : Processor) : Processor :=
  if topSkip p then p
  else ensureDataSize { p with dataPointer := p.dataPointer + 1 }

/-- `Processor.MoveLeft`: gated on skip; fatal when already at cell 0;
otherwise `DataPointer--`. -/
def MoveLeft (p : Processor) : Except ProcError Processor :=
  if topSkip p then .ok p
  else if p.dataPointer = 0 then .error .outOfBounds
  else .ok { p with dataPointer := p.dataPointer - 1 }

/-- UTF-8 encoding of a code point, modelling what Go's
`fmt.Printf("%c", rune(b))` writes for a valid rune: one byte below
128, two bytes below 2048, and so on. -/
def utf8encodeChar (n : Nat) : List Nat :=
  if n < 128 then [n]
  else if n < 2048 then [192 + n / 64, 128 + n % 64]
  else if n < 65536 then
    [224 + n / 4096, 128 + (n / 64) % 64, 128 + n % 64]
  else
    [240 + n / 262144, 128 + (n / 4096) % 64, 128 + (n / 64) % 64,
      128 + n % 64]

/-- `Processor.Output`: gated on skip; otherwise print the current cell
as a character, i.e. the UTF-8 encoding of the cell value taken as a
code point. -/
def Output (p : Processor) : Processor :=
  if topSkip p then p
  else { p with output := p.output ++ utf8encodeChar (Current p) }

/-- `Processor.Input`: gated on skip; read one byte from stdin into the
current cell, fatal when the reader errors (modelled by exhaustion). -/
def Input (p : Processor) : Except ProcError Processor :=
  if topSkip p then .ok p
  else
    match p.stdin with
    | [] => .error .ioError
    | b :: rest =>
        .ok { p with stdin := rest, data := p.data.set p.dataPointer (b % 256) }

/-- `Processor.StartLoop`: unconditionally push a closure recording the
position of this `[` and whether the current cell is zero. -/
def StartLoop (p : Processor) : Processor :=
  { p with closures :=
      { skip := Current p == 0, root := false, start := p.instructionPointer }
        :: p.closures }

/-- `Processor.EndLoop`: fatal when only the sentinel is on the stack;
when the top closure is not skipping and the cell is nonzero, jump the
instruction pointer back to the closure's `[` without popping; otherwise
pop the closure. -/
def EndLoop (p : Processor) : Except ProcError Processor :=
  if p.closures.length ≤ 1 then .error .unbalancedLoop
  else if (topClosure p).skip = false ∧ 0 < Current p then
    .ok { p with instructionPointer := (topClosure p).start }
  else
    .ok { p with closures := p.closures.tail }

/-- `Processor.ExpectEnd`: fatal when more than the sentinel closure
remains after the instruction buffer is exhausted. -/
def ExpectEnd (p : Processor) : Except ProcError Unit :=
  if 1 < p.closures.length then .error .unterminatedLoop else .ok ()

/-- The `switch instruction` dispatch inside `Processor.Execute`,
in the source's case order; unrecognized bytes are no-ops. -/
def dispatch (p : Processor) (instruction : Nat) : Except ProcError Processor :=
  if instruction = InstMoveRight then .ok (MoveRight p)
  else if instruction = InstMoveLeft then MoveLeft p
  else if instruction = InstDecrement then .ok (Decrement p)
  else if instruction = InstIncrement then .ok (Increment p)
  else if instruction = InstInput then Input p
  else if instruction = InstOutput then .ok (Output p)
  else if instruction = InstLoopStart then .ok (StartLoop p)
  else if instruction = InstLoopEnd then EndLoop p
  else .ok p

/-- One iteration of the `Processor.Execute` loop body: decode the byte
under the instruction pointer, dispatch it, then `instructionPointer++`
(after an `EndLoop` jump this lands one past the `[`). -/
def step (p : Processor) : Except ProcError Processor :=
  match dispatch p (p.instructionBuffer.getD p.instructionPointer 0) with
  | .error e => .error e
  | .ok q => .ok { q with instructionPointer := q.instructionPointer + 1 }

/-- `Processor.Execute`, fuel-indexed: iterate `step` while the
instruction pointer is inside the buffer, for at most `fuel` steps. -/
def ExecuteN : Nat → Processor → Except ProcError Processor
  | 0, p => .ok p
  | fuel + 1, p =>
    if p.instructionPointer < p.instructionBuffer.length then
      match step p with
      | .error e => .error e
      | .ok q => ExecuteN fuel q
    else .ok p

/-- The program run performed by `main`: build a processor, `Load` the
program, `Execute`, then `ExpectEnd`. -/
def runMain (fuel : Nat) (program input : List Nat) :
    Except ProcError Processor :=
  match ExecuteN fuel (Load (NewProcessor input) program) with
  | .error e => .error e
  | .ok q =>
    match ExpectEnd q with
    | .error e => .error e
    | .ok _ => .ok q

/-- Static bracket matching, with the running count of open `[`.
Formalizes the spec's side condition that the loop brackets of a
program are balanced (so that `assertBalanced` would pass were the end
of the buffer reached). -/
def bracketBalancedAux : List Nat → Nat → Bool
  | [], depth => depth == 0
  | b :: rest, depth =>
    if b == InstLoopStart then bracketBalancedAux rest (depth + 1)
    else if b == InstLoopEnd then
      if depth == 0 then false else bracketBalancedAux rest (depth - 1)
    else bracketBalancedAux rest depth

/-- A program's loop brackets are matched. -/
def bracketBalanced (program : List Nat) : Bool :=
  bracketBalancedAux program 0

/-- A sequence of executed increments (`true`) and decrements (`false`)
on a processor, the cursor never moving. -/
def applyOps (ops : List Bool) (p : Processor) : Processor :=
  ops.foldl (fun q b => if b then Increment q else Decrement q) p

/-! ## Helper lemmas about dispatch -/

theorem dispatch_loopEnd (p : Processor) :
    dispatch p InstLoopEnd = EndLoop p := by
  simp [dispatch, InstLoopEnd, InstMoveRight, InstMoveLeft, InstDecrement,
    InstIncrement, InstInput, InstOutput, InstLoopStart]

theorem dispatch_loopStart (p : Processor) :
    dispatch p InstLoopStart = .ok (StartLoop p) := by
  simp [dispatch, InstLoopEnd, InstMoveRight, InstMoveLeft, InstDecrement,
    InstIncrement, InstInput, InstOutput, InstLoopStart]

theorem step_eq (p : Processor) :
    step p = match dispatch p (p.instructionBuffer.getD p.instructionPointer 0) with
      | .error e => .error e
      | .ok q => .ok { q with instructionPointer := q.instructionPointer + 1 } := rfl

/-! ## Claim theorems -/

/-- Claim C1: executing a `]` pops the frame and advances when the top
frame skips; re-enters the loop at `frame.start + 1` without popping when
the frame is live and the cell is nonzero; pops and advances when the
cell is zero; and fails with `UnbalancedLoopError` on the bare sentinel. -/
theorem C1_endLoop_semantics (p : Processor)
    (h : p.instructionBuffer.getD p.instructionPointer 0 = InstLoopEnd) :
    (p.closures.length ≤ 1 → step p = .error .unbalancedLoop) ∧
    (∀ c rest, p.closures = c :: rest → rest ≠ [] →
      (c.skip = true →
        step p = .ok { p with closures := rest, instructionPointer := p.instructionPointer + 1 }) ∧
      (c.skip = false → Current p ≠ 0 →
        step p = .ok { p with instructionPointer := c.start + 1 }) ∧
      (c.skip = false → Current p = 0 →
        step p = .ok { p with closures := rest, instructionPointer := p.instructionPointer + 1 })) := by
  rw [step_eq, h, dispatch_loopEnd]
  constructor
  · intro hlen
    simp [EndLoop, hlen]
  · intro c rest hc hrest
    have hlen : ¬ p.closures.length ≤ 1 := by
      rw [hc]
      cases rest with
      | nil => exact absurd rfl hrest
      | cons d ds => simp
    have htop : topClosure p = c := by rw [topClosure, hc, List.headD_cons]
    refine ⟨?_, ?_, ?_⟩
    · intro hskip
      simp [EndLoop, hlen, htop, hskip, hc, hrest]
    · intro hskip hcur
      have : 0 < Current p := Nat.pos_of_ne_zero hcur
      simp [EndLoop, hlen, htop, hskip, this]
    · intro hskip hcur
      simp [EndLoop, hlen, htop, hskip, hcur, hc, hrest]

/-- A concrete processor paused on the `]` of `+[+-]` with a live frame
and a nonzero cell. -/
def endLoopSample : Processor :=
  { data := [7], dataPointer := 0, stdin := [], instructionPointer := 4,
    instructionBuffer := [43, 91, 43, 45, 93],
    closures := [{ skip := false, root := false, start := 1 },
      { skip := false, root := true, start := 0 }], output := [] }

/-- Claim C1 witness: a live frame over a nonzero cell makes `]` jump to
`start + 1` without touching the stack. -/
theorem C1_endLoop_semantics_witness :
    endLoopSample.instructionBuffer.getD endLoopSample.instructionPointer 0
        = InstLoopEnd ∧
      step endLoopSample = .ok { endLoopSample with instructionPointer := 2 } := by
  refine ⟨by decide, ?_⟩
  exact ((C1_endLoop_semantics endLoopSample (by decide)).2 _ _ rfl
    (by decide)).2.1 rfl (by decide)

/-- Claim C8: a non-skipped `<` at cursor 0 fails with the out-of-bounds
error and never wraps; at a positive cursor it moves left by one. -/
theorem C8_moveLeft_semantics (p : Processor) (h : topSkip p = false) :
    (p.dataPointer = 0 → MoveLeft p = .error .outOfBounds) ∧
    (0 < p.dataPointer →
      MoveLeft p = .ok { p with dataPointer := p.dataPointer - 1 }) := by
  constructor
  · intro h0
    simp [MoveLeft, h, h0]
  · intro h0
    have : ¬ p.dataPointer = 0 := by omega
    simp [MoveLeft, h, this]

/-- Claim C8 witness: `<` on a fresh processor fails with
`OutOfBoundsError`, and from cursor 1 it returns to cursor 0. -/
theorem C8_moveLeft_semantics_witness :
    topSkip (NewProcessor []) = false ∧
      MoveLeft (NewProcessor []) = .error .outOfBounds ∧
      topSkip { NewProcessor [] with dataPointer := 1 } = false ∧
      MoveLeft { NewProcessor [] with dataPointer := 1 }
        = .ok { NewProcessor [] with dataPointer := 0 } := by
  refine ⟨by decide, (C8_moveLeft_semantics _ (by decide)).1 rfl, by decide, ?_⟩
  exact (C8_moveLeft_semantics _ (by decide)).2 (by decide)

/-- Claim C10: `Load` installs the instruction buffer, resets the
instruction pointer to 0 and leaves the tape, cursor, loop stack, input
and output untouched. -/
theorem C10_load_preserves_state (p : Processor) (instructions : List Nat) :
    (Load p instructions).instructionBuffer = instructions ∧
    (Load p instructions).instructionPointer = 0 ∧
    (Load p instructions).data = p.data ∧
    (Load p instructions).dataPointer = p.dataPointer ∧
    (Load p instructions).closures = p.closures ∧
    (Load p instructions).stdin = p.stdin ∧
    (Load p instructions).output = p.output := by
  simp [Load]

/-- Claim C9: a non-skipped `.` renders the cell as a Unicode code
point: one byte equal to the value below 128, and for 128-255 the
two-byte encoding of the code point rather than the single raw octet. -/
theorem C9_output_codepoint (p : Processor) (h : topSkip p = false) :
    (Current p < 128 → (Output p).output = p.output ++ [Current p]) ∧
    (128 ≤ Current p → Current p < 256 →
      (Output p).output
          = p.output ++ [192 + Current p / 64, 128 + Current p % 64] ∧
        (Output p).output ≠ p.output ++ [Current p]) := by
  constructor
  · intro hlt
    simp [Output, h, utf8encodeChar, hlt]
  · intro hge hlt
    have h128 : ¬ Current p < 128 := by omega
    have h2048 : Current p < 2048 := by omega
    refine ⟨by simp [Output, h, utf8encodeChar, h128, h2048], ?_⟩
    intro heq
    have hlen := congrArg List.length heq
    simp [Output, h, utf8encodeChar, h128, h2048] at hlen

/-- A processor holding the cell value 200, about to print. -/
def outputSample : Processor :=
  { data := [200], dataPointer := 0, stdin := [], instructionPointer := 0,
    instructionBuffer := [46],
    closures := [{ skip := false, root := true, start := 0 }], output := [] }

/-- Claim C9 witness: printing the cell value 200 emits the two UTF-8
bytes 195, 136 of U+00C8, not the raw octet 200. -/
theorem C9_output_codepoint_witness :
    topSkip outputSample = false ∧ 128 ≤ Current outputSample ∧
      Current outputSample < 256 ∧
      (Output outputSample).output = [195, 136] ∧
      (Output outputSample).output ≠ [200] := by
  have h := (C9_output_codepoint outputSample (by decide)).2 (by decide) (by decide)
  exact ⟨by decide, by decide, by decide, h.1, h.2⟩

/-- A processor whose cursor sits on the last cell of its single page,
so the next `>` forces tape growth. -/
def growthSample : Processor :=
  { data := List.replicate 1024 0, dataPointer := 1023, stdin := [],
    instructionPointer := 0, instructionBuffer := [62],
    closures := [{ skip := false, root := true, start := 0 }], output := [] }

/-- Claim C3 counterexample: moving right off a full 1024-byte page
grows the tape to 2049 bytes, which is not a multiple of the page
size 1024. -/
theorem C3_growth_counterexample :
    (MoveRight growthSample).data.length = 2049 ∧
      ¬ (MoveRight growthSample).data.length % DefaultPageSize = 0 := by
  have h : (MoveRight growthSample).data.length = 2049 := by
    rw [MoveRight]
    rw [if_neg (by decide)]
    rw [ensureDataSize]
    rw [if_pos (by simp [growthSample])]
    simp [growthSample, DefaultPageSize]
  refine ⟨h, ?_⟩
  rw [h]
  decide

/-- Claim C3 as amended: whenever a non-skipped `>` makes the cursor
reach or pass the end of the tape, the new length is one byte more than
the next whole multiple of the page size 1024 — namely
`(1 + cursor/1024) * 1024 + 1` — and strictly exceeds the cursor. -/
theorem C3_growth_page_plus_one (p : Processor) (h : topSkip p = false)
    (hgrow : p.data.length ≤ p.dataPointer + 1) :
    (MoveRight p).dataPointer = p.dataPointer + 1 ∧
    (MoveRight p).data.length
        = (1 + (p.dataPointer + 1) / DefaultPageSize) * DefaultPageSize + 1 ∧
    (MoveRight p).dataPointer < (MoveRight p).data.length := by
  have hnext : p.data.length
      ≤ (1 + (p.dataPointer + 1) / DefaultPageSize) * DefaultPageSize := by
    have := Nat.div_add_mod (p.dataPointer + 1) 1024
    have := Nat.mod_lt (p.dataPointer + 1) (by omega : 0 < 1024)
    simp only [DefaultPageSize]
    omega
  have hlen : (MoveRight p).data.length
      = (1 + (p.dataPointer + 1) / DefaultPageSize) * DefaultPageSize + 1 := by
    rw [MoveRight, if_neg (by simp [h]), ensureDataSize]
    rw [if_pos (by simpa using hgrow)]
    simp only [List.length_append, List.length_replicate]
    omega
  have hptr : (MoveRight p).dataPointer = p.dataPointer + 1 := by
    rw [MoveRight, if_neg (by simp [h]), ensureDataSize]
    rw [if_pos (by simpa using hgrow)]
  refine ⟨hptr, hlen, ?_⟩
  rw [hptr, hlen]
  have := Nat.div_add_mod (p.dataPointer + 1) 1024
  have := Nat.mod_lt (p.dataPointer + 1) (by omega : 0 < 1024)
  simp only [DefaultPageSize]
  omega

/-- Claim C3 amended witness: growing off the first page yields length
2049 = 2*1024 + 1, strictly past the cursor. -/
theorem C3_growth_page_plus_one_witness :
    topSkip growthSample = false ∧
      growthSample.data.length ≤ growthSample.dataPointer + 1 ∧
      (MoveRight growthSample).dataPointer = growthSample.dataPointer + 1 ∧
      (MoveRight growthSample).data.length
        = (1 + (growthSample.dataPointer + 1) / DefaultPageSize)
            * DefaultPageSize + 1 ∧
      (MoveRight growthSample).dataPointer
        < (MoveRight growthSample).data.length := by
  have h := C3_growth_page_plus_one growthSample (by decide) (by simp [growthSample])
  exact ⟨by decide, by simp [growthSample], h.1, h.2.1, h.2.2⟩

/-! ## Cell arithmetic (claim C7) -/

theorem Increment_spec (p : Processor) (h : topSkip p = false)
    (hp : p.dataPointer < p.data.length) :
    Current (Increment p) = (Current p + 1) % 256 ∧
      topSkip (Increment p) = topSkip p ∧
      (Increment p).dataPointer = p.dataPointer ∧
      (Increment p).data.length = p.data.length := by
  rw [Increment, if_neg (by simp [h])]
  refine ⟨?_, rfl, rfl, by simp⟩
  simp [Current, List.getD_eq_getElem?_getD, List.getElem?_set_self, hp]

theorem Decrement_spec (p : Processor) (h : topSkip p = false)
    (hp : p.dataPointer < p.data.length) :
    Current (Decrement p) = (Current p + 255) % 256 ∧
      topSkip (Decrement p) = topSkip p ∧
      (Decrement p).dataPointer = p.dataPointer ∧
      (Decrement p).data.length = p.data.length := by
  rw [Decrement, if_neg (by simp [h])]
  refine ⟨?_, rfl, rfl, by simp⟩
  simp [Current, List.getD_eq_getElem?_getD, List.getElem?_set_self, hp]

/-- Claim C7: a run of executed `+`/`-` instructions on one cell holding
a byte value yields `(v + count(+) - count(-)) mod 256`, wrapping in both
directions with no overflow error. -/
theorem C7_cell_arithmetic (ops : List Bool) (p : Processor)
    (h : topSkip p = false) (hp : p.dataPointer < p.data.length)
    (hv : Current p < 256) :
    (Current (applyOps ops p) : Int)
      = ((Current p : Int) + (ops.count true : Int) - (ops.count false : Int))
          % 256 := by
  induction ops generalizing p with
  | nil =>
    simp only [applyOps, List.foldl_nil, List.count_nil, Int.natCast_zero,
      add_zero, sub_zero]
    rw [Int.emod_eq_of_lt (Int.natCast_nonneg _) (by exact_mod_cast hv)]
  | cons b rest ih =>
    have hstep : applyOps (b :: rest) p
        = applyOps rest (if b then Increment p else Decrement p) := rfl
    cases b with
    | true =>
      obtain ⟨hcur, hskip, hptr, hlen⟩ := Increment_spec p h hp
      have ih' := ih (Increment p) (by rw [hskip, h]) (by rw [hptr, hlen]; exact hp)
        (by rw [hcur]; exact Nat.mod_lt _ (by omega))
      rw [hstep, if_pos rfl, ih', hcur]
      simp only [List.count_cons, beq_self_eq_true, if_true, beq_iff_eq]
      push_cast
      omega
    | false =>
      obtain ⟨hcur, hskip, hptr, hlen⟩ := Decrement_spec p h hp
      have ih' := ih (Decrement p) (by rw [hskip, h]) (by rw [hptr, hlen]; exact hp)
        (by rw [hcur]; exact Nat.mod_lt _ (by omega))
      rw [hstep, if_neg (by simp), ih', hcur]
      simp only [List.count_cons, beq_self_eq_true, if_true, beq_iff_eq]
      push_cast
      omega

/-- A processor holding the cell value 255 under a live top frame. -/
def cellSample : Processor :=
  { data := [255], dataPointer := 0, stdin := [], instructionPointer := 0,
    instructionBuffer := [43],
    closures := [{ skip := false, root := true, start := 0 }], output := [] }

/-- Claim C7 witness: a single `+` on a cell holding 255 wraps to 0, and
matches `(255 + 1 - 0) mod 256`. -/
theorem C7_cell_arithmetic_witness :
    topSkip cellSample = false ∧
      cellSample.dataPointer < cellSample.data.length ∧
      Current cellSample < 256 ∧
      (Current (applyOps [true] cellSample) : Int)
        = ((Current cellSample : Int) + (([true].count true : Nat) : Int)
            - (([true].count false : Nat) : Int)) % 256 ∧
      Current (applyOps [true] cellSample) = 0 := by
  refine ⟨by decide, by decide, by decide, ?_, by decide⟩
  exact C7_cell_arithmetic [true] cellSample (by decide) (by decide) (by decide)

/-! ## Cursor validity (claim C6) -/

/-- The cursor is a valid index into the tape. -/
def CursorOk (p : Processor) : Prop :=
  p.dataPointer < p.data.length

theorem ensureDataSize_cursorOk (p : Processor) :
    CursorOk (ensureDataSize p) := by
  rw [ensureDataSize]
  split
  · rename_i hgrow
    simp only [CursorOk, List.length_append, List.length_replicate]
    have := Nat.div_add_mod p.dataPointer 1024
    have := Nat.mod_lt p.dataPointer (by omega : 0 < 1024)
    simp only [DefaultPageSize]
    omega
  · rename_i hsmall
    simp only [CursorOk]
    omega

theorem dispatch_cursorOk (p : Processor) (i : Nat) (r : Processor)
    (hp : CursorOk p) (h : dispatch p i = .ok r) : CursorOk r := by
  rw [dispatch] at h
  split_ifs at h
  · injection h with h
    subst h
    rw [MoveRight]
    split
    · exact hp
    · exact ensureDataSize_cursorOk _
  · rw [MoveLeft] at h
    split_ifs at h
    · injection h with h
      subst h
      exact hp
    · injection h with h
      subst h
      simp only [CursorOk] at hp ⊢
      omega
  · injection h with h
    subst h
    rw [Decrement]
    split
    · exact hp
    · simpa [CursorOk] using hp
  · injection h with h
    subst h
    rw [Increment]
    split
    · exact hp
    · simpa [CursorOk] using hp
  · rw [Input] at h
    split_ifs at h
    · injection h with h
      subst h
      exact hp
    · cases hstdin : p.stdin with
      | nil => rw [hstdin] at h; exact absurd h (by simp)
      | cons b rest =>
        rw [hstdin] at h
        injection h with h
        subst h
        simpa [CursorOk] using hp
  · injection h with h
    subst h
    rw [Output]
    split
    · exact hp
    · exact hp
  · injection h with h
    subst h
    exact hp
  · rw [EndLoop] at h
    split_ifs at h
    · injection h with h
      subst h
      exact hp
    · injection h with h
      subst h
      exact hp
  · injection h with h
    subst h
    exact hp

theorem step_cursorOk (p q : Processor) (hp : CursorOk p)
    (h : step p = .ok q) : CursorOk q := by
  rw [step] at h
  rcases hd : dispatch p (p.instructionBuffer.getD p.instructionPointer 0)
    with e | r
  · rw [hd] at h
    exact absurd h (by simp)
  · rw [hd] at h
    injection h with h
    subst h
    exact dispatch_cursorOk p _ r hp hd

theorem ExecuteN_cursorOk :
    ∀ (n : Nat) (p q : Processor), CursorOk p → ExecuteN n p = .ok q →
      CursorOk q := by
  intro n
  induction n with
  | zero =>
    intro p q hp h
    injection h with h
    subst h
    exact hp
  | succ n ih =>
    intro p q hp h
    rw [ExecuteN] at h
    split at h
    · rcases hs : step p with e | r
      · rw [hs] at h
        exact absurd h (by simp)
      · rw [hs] at h
        exact ih r q (step_cursorOk p r hp hs) h
    · injection h with h
      subst h
      exact hp

/-- Claim C6: the cursor is a valid index into the tape in the initial
state, stays valid across both movement operations (growth happens
before the cursor is next used), and stays valid across any number of
executed instructions. -/
theorem C6_cursor_always_valid :
    (∀ input program, CursorOk (Load (NewProcessor input) program)) ∧
    (∀ p, CursorOk p → CursorOk (MoveRight p)) ∧
    (∀ p q, CursorOk p → MoveLeft p = .ok q → CursorOk q) ∧
    (∀ n p q, CursorOk p → ExecuteN n p = .ok q → CursorOk q) := by
  refine ⟨?_, ?_, ?_, ExecuteN_cursorOk⟩
  · intro input program
    simp [CursorOk, Load, NewProcessor, DefaultPageSize]
  · intro p hp
    rw [MoveRight]
    split
    · exact hp
    · exact ensureDataSize_cursorOk _
  · intro p q hp h
    rw [MoveLeft] at h
    split_ifs at h
    · injection h with h
      subst h
      exact hp
    · injection h with h
      subst h
      simp only [CursorOk] at hp ⊢
      omega

/-- Claim C6 witness: on a freshly loaded processor the cursor is valid
and stays valid after a `>`. -/
theorem C6_cursor_always_valid_witness :
    CursorOk (Load (NewProcessor []) [62]) ∧
      CursorOk (MoveRight (Load (NewProcessor []) [62])) := by
  have h := C6_cursor_always_valid
  exact ⟨h.1 [] [62], h.2.1 _ (h.1 [] [62])⟩

/-! ## End-of-run balance check (claim C4) -/

/-- Claim C4: when a run reaches the end of the instruction buffer, the
end-of-run balance check makes the run fail with `UnterminatedLoopError`
exactly when more than the sentinel frame is on the loop stack (one or
more `[` unmatched); otherwise the run succeeds. -/
theorem C4_assertBalanced_at_end (fuel : Nat) (program input : List Nat)
    (q : Processor)
    (hrun : ExecuteN fuel (Load (NewProcessor input) program) = .ok q)
    (hdone : q.instructionBuffer.length ≤ q.instructionPointer) :
    (runMain fuel program input = .error .unterminatedLoop
        ↔ 1 < q.closures.length) ∧
      (q.closures.length ≤ 1 → runMain fuel program input = .ok q) := by
  by_cases h : 1 < q.closures.length
  · have hm : runMain fuel program input = .error .unterminatedLoop := by
      simp only [runMain, hrun, ExpectEnd, if_pos h]
    refine ⟨by simp [hm, h], ?_⟩
    intro hle
    omega
  · have hm : runMain fuel program input = .ok q := by
      simp only [runMain, hrun, ExpectEnd, if_neg h]
    refine ⟨by simp [hm, h], fun _ => hm⟩

/-- The state after executing the one-instruction program `[` on a fresh
processor: the buffer is exhausted and a skip frame remains unmatched. -/
def unterminatedSample : Processor :=
  { data := List.replicate 1024 0, dataPointer := 0, stdin := [],
    instructionPointer := 1, instructionBuffer := [91],
    closures := [{ skip := true, root := false, start := 0 },
      { skip := false, root := true, start := 0 }], output := [] }

/-- Claim C4 witness: the program `[` runs to the end of its buffer and
then fails with `UnterminatedLoopError`. -/
theorem C4_assertBalanced_at_end_witness :
    ExecuteN 1 (Load (NewProcessor []) [91]) = .ok unterminatedSample ∧
      unterminatedSample.instructionBuffer.length
        ≤ unterminatedSample.instructionPointer ∧
      1 < unterminatedSample.closures.length ∧
      runMain 1 [91] [] = .error .unterminatedLoop := by
  have hrun : ExecuteN 1 (Load (NewProcessor []) [91]) = .ok unterminatedSample := by
    decide
  refine ⟨hrun, by decide, by decide, ?_⟩
  exact (C4_assertBalanced_at_end 1 [91] [] unterminatedSample hrun
    (by decide)).1.mpr (by decide)

/-! ## Non-termination of the balanced program (claim C5) -/

/-- The balanced program `+[]` from the spec's own test list. -/
def plusLoopProgram : List Nat := [43, 91, 93]

/-- `+[]` freshly loaded. -/
def plusLoopS0 : Processor := Load (NewProcessor []) plusLoopProgram

/-- `+[]` after the `+`: cell 0 holds 1. -/
def plusLoopS1 : Processor :=
  { data := (List.replicate 1024 0).set 0 1, dataPointer := 0, stdin := [],
    instructionPointer := 1, instructionBuffer := plusLoopProgram,
    closures := [{ skip := false, root := true, start := 0 }], output := [] }

/-- `+[]` after the `[`: a live frame for the nonzero cell.  This state
is a fixed point of `step`: the `]` jumps back to the `[` and the
trailing increment returns the pointer to the `]`. -/
def plusLoopS2 : Processor :=
  { plusLoopS1 with
    instructionPointer := 2
    closures := [{ skip := false, root := false, start := 1 },
      { skip := false, root := true, start := 0 }] }

theorem plusLoop_step0 : step plusLoopS0 = .ok plusLoopS1 := by decide

theorem plusLoop_step1 : step plusLoopS1 = .ok plusLoopS2 := by decide

theorem plusLoop_fix : step plusLoopS2 = .ok plusLoopS2 := by decide

theorem plusLoop_fix_run (n : Nat) : ExecuteN n plusLoopS2 = .ok plusLoopS2 := by
  induction n with
  | zero => rfl
  | succ n ih =>
    rw [ExecuteN, if_pos (by decide), plusLoop_fix]
    exact ih

theorem plusLoop_run (m : Nat) :
    ExecuteN m plusLoopS0 = .ok plusLoopS0 ∨
      ExecuteN m plusLoopS0 = .ok plusLoopS1 ∨
      ExecuteN m plusLoopS0 = .ok plusLoopS2 := by
  match m with
  | 0 => exact Or.inl rfl
  | 1 => exact Or.inr (Or.inl (by decide))
  | k + 2 =>
    refine Or.inr (Or.inr ?_)
    show ExecuteN (k + 1 + 1) plusLoopS0 = .ok plusLoopS2
    rw [ExecuteN, if_pos (by decide), plusLoop_step0]
    show ExecuteN (k + 1) plusLoopS1 = .ok plusLoopS2
    rw [ExecuteN, if_pos (by decide), plusLoop_step1]
    show ExecuteN k plusLoopS2 = .ok plusLoopS2
    exact plusLoop_fix_run k

/-- Claim C5 counterexample: the program `+[]` has balanced brackets,
yet no amount of fuel makes the dispatch loop reach the end of the
instruction buffer — execution cycles forever on the nonzero cell. -/
theorem C5_balanced_termination_counterexample :
    bracketBalanced plusLoopProgram = true ∧
      ¬ ∃ n q, ExecuteN n plusLoopS0 = .ok q ∧
          q.instructionBuffer.length ≤ q.instructionPointer := by
  refine ⟨by decide, ?_⟩
  rintro ⟨n, q, hrun, hdone⟩
  rcases plusLoop_run n with h | h | h <;>
    rw [h] at hrun <;> injection hrun with hq <;> subst hq <;>
    exact absurd hdone (by decide)

/-! ## Termination of loop-free programs (amended claim C5) -/

theorem MoveRight_frame (p : Processor) :
    (MoveRight p).closures = p.closures ∧
      (MoveRight p).instructionBuffer = p.instructionBuffer ∧
      (MoveRight p).instructionPointer = p.instructionPointer := by
  rw [MoveRight]
  split
  · exact ⟨rfl, rfl, rfl⟩
  · rw [ensureDataSize]
    split <;> exact ⟨rfl, rfl, rfl⟩

theorem dispatch_frame (p : Processor) (i : Nat) (r : Processor)
    (hS : i ≠ InstLoopStart) (hE : i ≠ InstLoopEnd)
    (h : dispatch p i = .ok r) :
    r.closures = p.closures ∧ r.instructionBuffer = p.instructionBuffer ∧
      r.instructionPointer = p.instructionPointer := by
  rw [dispatch] at h
  split_ifs at h
  · injection h with h
    subst h
    exact MoveRight_frame p
  · rw [MoveLeft] at h
    split_ifs at h
    · injection h with h
      subst h
      exact ⟨rfl, rfl, rfl⟩
    · injection h with h
      subst h
      exact ⟨rfl, rfl, rfl⟩
  · injection h with h
    subst h
    rw [Decrement]
    split <;> exact ⟨rfl, rfl, rfl⟩
  · injection h with h
    subst h
    rw [Increment]
    split <;> exact ⟨rfl, rfl, rfl⟩
  · rw [Input] at h
    split_ifs at h
    · injection h with h
      subst h
      exact ⟨rfl, rfl, rfl⟩
    · cases hstdin : p.stdin with
      | nil =>
        rw [hstdin] at h
        simp at h
      | cons b rest =>
        rw [hstdin] at h
        injection h with h
        subst h
        exact ⟨rfl, rfl, rfl⟩
  · injection h with h
    subst h
    rw [Output]
    split <;> exact ⟨rfl, rfl, rfl⟩
  · injection h with h
    subst h
    exact ⟨rfl, rfl, rfl⟩

theorem step_frame (p r : Processor)
    (hS : p.instructionBuffer.getD p.instructionPointer 0 ≠ InstLoopStart)
    (hE : p.instructionBuffer.getD p.instructionPointer 0 ≠ InstLoopEnd)
    (h : step p = .ok r) :
    r.closures = p.closures ∧ r.instructionBuffer = p.instructionBuffer ∧
      r.instructionPointer = p.instructionPointer + 1 := by
  rw [step] at h
  rcases hd : dispatch p (p.instructionBuffer.getD p.instructionPointer 0)
    with e | m
  · rw [hd] at h
    simp at h
  · rw [hd] at h
    injection h with h
    subst h
    obtain ⟨hc, hb, hip⟩ := dispatch_frame p _ m hS hE hd
    exact ⟨hc, hb, by rw [hip]⟩

theorem ExecuteN_no_loopStart (k : Nat) :
    ∀ p : Processor, p.closures.length ≤ 1 →
      (∀ i, i < p.instructionBuffer.length →
        p.instructionBuffer.getD i 0 ≠ InstLoopStart) →
      p.instructionBuffer.length ≤ p.instructionPointer + k →
      (∃ e, ExecuteN k p = .error e) ∨
        (∃ q, ExecuteN k p = .ok q ∧
          q.instructionBuffer.length ≤ q.instructionPointer) := by
  induction k with
  | zero =>
    intro p h1 h2 h3
    exact Or.inr ⟨p, rfl, by omega⟩
  | succ k ih =>
    intro p h1 h2 h3
    rw [ExecuteN]
    split
    · rename_i hlt
      rcases hs : step p with e | r
      · exact Or.inl ⟨e, by simp only [hs]⟩
      · have hiS : p.instructionBuffer.getD p.instructionPointer 0
            ≠ InstLoopStart := h2 _ hlt
        have hiE : p.instructionBuffer.getD p.instructionPointer 0
            ≠ InstLoopEnd := by
          intro hE
          rw [step, hE, dispatch_loopEnd, EndLoop, if_pos h1] at hs
          simp at hs
        obtain ⟨hc, hb, hip⟩ := step_frame p r hiS hiE hs
        have := ih r (by rw [hc]; exact h1)
          (by rw [hb]; exact h2) (by rw [hb, hip]; omega)
        simpa only [hs] using this
    · exact Or.inr ⟨p, rfl, by omega⟩

/-- Claim C5 as amended: a program containing no `[` terminates within
program-length many steps, either by aborting with a fatal error or by
reaching the end of the instruction buffer; balanced programs in general
need not terminate (`+[]` above runs forever). -/
theorem C5_no_loopStart_terminates (program input : List Nat)
    (h : InstLoopStart ∉ program) :
    (∃ e, ExecuteN program.length (Load (NewProcessor input) program)
        = .error e) ∨
      (∃ q, ExecuteN program.length (Load (NewProcessor input) program)
          = .ok q ∧
        q.instructionBuffer.length ≤ q.instructionPointer) := by
  apply ExecuteN_no_loopStart
  · simp [Load, NewProcessor]
  · intro i hi
    simp only [Load] at hi ⊢
    rw [List.getD_eq_getElem program 0 hi]
    intro he
    exact h (he ▸ List.getElem_mem hi)
  · simp [Load]

/-! ## Skipped regions are inert (claim C2) -/

theorem dispatch_skip (q : Processor) (i : Nat) (hskip : topSkip q = true)
    (hS : i ≠ InstLoopStart) (hE : i ≠ InstLoopEnd) :
    dispatch q i = .ok q := by
  rw [dispatch]
  split_ifs
  · simp [MoveRight, hskip]
  · simp [MoveLeft, hskip]
  · simp [Decrement, hskip]
  · simp [Increment, hskip]
  · simp [Input, hskip]
  · simp [Output, hskip]
  · rfl

theorem step_skip_noop (q : Processor) (hskip : topSkip q = true)
    (hS : q.instructionBuffer.getD q.instructionPointer 0 ≠ InstLoopStart)
    (hE : q.instructionBuffer.getD q.instructionPointer 0 ≠ InstLoopEnd) :
    step q = .ok { q with instructionPointer := q.instructionPointer + 1 } := by
  rw [step, dispatch_skip q _ hskip hS hE]

theorem step_loopStart (q : Processor)
    (hi : q.instructionBuffer.getD q.instructionPointer 0 = InstLoopStart) :
    step q = .ok { q with
      closures :=
        { skip := Current q == 0, root := false, start := q.instructionPointer }
          :: q.closures
      instructionPointer := q.instructionPointer + 1 } := by
  rw [step, hi, dispatch_loopStart]
  rfl

theorem step_loopEnd_skip (q : Processor)
    (hi : q.instructionBuffer.getD q.instructionPointer 0 = InstLoopEnd)
    (hskip : topSkip q = true) (hlen : 1 < q.closures.length) :
    step q = .ok { q with
      closures := q.closures.tail
      instructionPointer := q.instructionPointer + 1 } := by
  have hcond : ¬ ((topClosure q).skip = false ∧ 0 < Current q) := by
    intro hc
    rw [topSkip] at hskip
    rw [hc.1] at hskip
    cases hskip
  rw [step, hi, dispatch_loopEnd, EndLoop, if_neg (by omega), if_neg hcond]

theorem ExecuteN_succ_of_step (q q1 : Processor)
    (hq : q.instructionPointer < q.instructionBuffer.length)
    (hstep : step q = .ok q1) (m : Nat) :
    ExecuteN (m + 1) q = ExecuteN m q1 := by
  rw [ExecuteN, if_pos hq, hstep]

/-- One step from a state whose top frame skips: the tape, cursor, input
and output are untouched, the instruction pointer advances by exactly
one, and the loop stack is unchanged, pushed with a frame recording the
(frozen) cell, or popped at a `]`. -/
theorem step_skip_cases (q : Processor) (hskip : topSkip q = true)
    (hlen : 1 < q.closures.length) :
    ∃ q1, step q = .ok q1 ∧
      q1.data = q.data ∧ q1.dataPointer = q.dataPointer ∧
      q1.stdin = q.stdin ∧ q1.output = q.output ∧
      q1.instructionBuffer = q.instructionBuffer ∧
      q1.instructionPointer = q.instructionPointer + 1 ∧
      (q1.closures = q.closures ∨
        (∃ c : Closure, c.skip = (Current q == 0) ∧
          q1.closures = c :: q.closures) ∨
        q1.closures = q.closures.tail) := by
  by_cases hiS : q.instructionBuffer.getD q.instructionPointer 0 = InstLoopStart
  · exact ⟨_, step_loopStart q hiS, rfl, rfl, rfl, rfl, rfl, rfl,
      Or.inr (Or.inl ⟨_, rfl, rfl⟩)⟩
  by_cases hiE : q.instructionBuffer.getD q.instructionPointer 0 = InstLoopEnd
  · exact ⟨_, step_loopEnd_skip q hiE hskip hlen, rfl, rfl, rfl, rfl, rfl, rfl,
      Or.inr (Or.inr rfl)⟩
  · exact ⟨_, step_skip_noop q hskip hiS hiE, rfl, rfl, rfl, rfl, rfl, rfl,
      Or.inl rfl⟩

/-- Running inside a region whose frames all skip, above a live stack
`base`: either the region's outermost frame `f0` is popped within the
fuel — at the matching `]`, with tape, cursor, input and output exactly
as at entry and the instruction pointer having advanced one position per
step — or the run (still inside the region) has touched nothing. -/
theorem ExecuteN_skip_region :
    ∀ (n : Nat) (q : Processor) (pre : List Closure) (f0 : Closure)
      (base : List Closure),
      q.closures = pre ++ f0 :: base →
      (∀ c ∈ pre, c.skip = true) →
      f0.skip = true →
      base ≠ [] →
      Current q = 0 →
      (∃ m r, m ≤ n ∧ ExecuteN m q = .ok r ∧ r.closures = base ∧
          r.data = q.data ∧ r.dataPointer = q.dataPointer ∧
          r.stdin = q.stdin ∧ r.output = q.output ∧
          r.instructionPointer = q.instructionPointer + m) ∨
        (∃ r pre2, ExecuteN n q = .ok r ∧ r.closures = pre2 ++ f0 :: base ∧
          (∀ c ∈ pre2, c.skip = true) ∧ r.data = q.data ∧
          r.dataPointer = q.dataPointer ∧ r.stdin = q.stdin ∧
          r.output = q.output ∧
          q.instructionPointer ≤ r.instructionPointer) := by
  intro n
  induction n with
  | zero =>
    intro q pre f0 base hclo hpre hf0 hbase hcur
    exact Or.inr ⟨q, pre, rfl, hclo, hpre, rfl, rfl, rfl, rfl, Nat.le_refl _⟩
  | succ n ih =>
    intro q pre f0 base hclo hpre hf0 hbase hcur
    by_cases hq : q.instructionPointer < q.instructionBuffer.length
    · have hskip : topSkip q = true := by
        rw [topSkip, topClosure, hclo]
        cases pre with
        | nil => simpa using hf0
        | cons c pre2 => simpa using hpre c (List.mem_cons_self c pre2)
      have hlen : 1 < q.closures.length := by
        have hb : base.length ≠ 0 := by simpa [List.length_eq_zero] using hbase
        rw [hclo]
        simp only [List.length_append, List.length_cons]
        omega
      obtain ⟨q1, hstep, hd, hp, hs, ho, hb, hip, hclo1⟩ :=
        step_skip_cases q hskip hlen
      have hcur1 : Current q1 = 0 := by
        rw [Current, hd, hp]
        exact hcur
      rcases hclo1 with hsame | ⟨c, hcskip, hpush⟩ | hpop
      · rcases ih q1 pre f0 base (by rw [hsame, hclo]) hpre hf0 hbase hcur1
          with ⟨m, r, hm, hrun, h1, h2, h3, h4, h5, h6⟩
             | ⟨r, pre2, hrun, h1, h2, h3, h4, h5, h6, h7⟩
        · refine Or.inl ⟨m + 1, r, by omega, ?_, h1, ?_, ?_, ?_, ?_, by omega⟩
          · rw [ExecuteN_succ_of_step q q1 hq hstep]
            exact hrun
          · rw [h2, hd]
          · rw [h3, hp]
          · rw [h4, hs]
          · rw [h5, ho]
        · refine Or.inr ⟨r, pre2, ?_, h1, h2, ?_, ?_, ?_, ?_, by omega⟩
          · rw [ExecuteN_succ_of_step q q1 hq hstep]
            exact hrun
          · rw [h3, hd]
          · rw [h4, hp]
          · rw [h5, hs]
          · rw [h6, ho]
      · have hcskip2 : c.skip = true := by
          rw [hcskip, hcur]
          rfl
        rcases ih q1 (c :: pre) f0 base (by rw [hpush, hclo]; rfl)
            (by
              intro x hx
              rcases List.mem_cons.mp hx with hx | hx
              · rw [hx]
                exact hcskip2
              · exact hpre x hx) hf0 hbase hcur1
          with ⟨m, r, hm, hrun, h1, h2, h3, h4, h5, h6⟩
             | ⟨r, pre2, hrun, h1, h2, h3, h4, h5, h6, h7⟩
        · refine Or.inl ⟨m + 1, r, by omega, ?_, h1, ?_, ?_, ?_, ?_, by omega⟩
          · rw [ExecuteN_succ_of_step q q1 hq hstep]
            exact hrun
          · rw [h2, hd]
          · rw [h3, hp]
          · rw [h4, hs]
          · rw [h5, ho]
        · refine Or.inr ⟨r, pre2, ?_, h1, h2, ?_, ?_, ?_, ?_, by omega⟩
          · rw [ExecuteN_succ_of_step q q1 hq hstep]
            exact hrun
          · rw [h3, hd]
          · rw [h4, hp]
          · rw [h5, hs]
          · rw [h6, ho]
      · cases pre with
        | nil =>
          refine Or.inl ⟨1, q1, by omega, ?_, ?_, hd, hp, hs, ho, by omega⟩
          · rw [ExecuteN_succ_of_step q q1 hq hstep 0]
            rfl
          · rw [hpop, hclo]
            rfl
        | cons c pre2 =>
          rcases ih q1 pre2 f0 base (by rw [hpop, hclo]; rfl)
              (fun x hx => hpre x (List.mem_cons_of_mem c hx)) hf0 hbase hcur1
            with ⟨m, r, hm, hrun, h1, h2, h3, h4, h5, h6⟩
               | ⟨r, pre3, hrun, h1, h2, h3, h4, h5, h6, h7⟩
          · refine Or.inl ⟨m + 1, r, by omega, ?_, h1, ?_, ?_, ?_, ?_, by omega⟩
            · rw [ExecuteN_succ_of_step q q1 hq hstep]
              exact hrun
            · rw [h2, hd]
            · rw [h3, hp]
            · rw [h4, hs]
            · rw [h5, ho]
          · refine Or.inr ⟨r, pre3, ?_, h1, h2, ?_, ?_, ?_, ?_, by omega⟩
            · rw [ExecuteN_succ_of_step q q1 hq hstep]
              exact hrun
            · rw [h3, hd]
            · rw [h4, hp]
            · rw [h5, hs]
            · rw [h6, ho]
    · refine Or.inr ⟨q, pre, ?_, hclo, hpre, rfl, rfl, rfl, rfl, Nat.le_refl _⟩
      rw [ExecuteN, if_neg hq]

/-- The state produced by executing a `[` over a zero cell: a frame with
`skip` set is pushed and the instruction pointer moves past the `[`. -/
def skipEntry (p : Processor) : Processor :=
  { p with
    closures := { skip := true, root := false, start := p.instructionPointer }
      :: p.closures
    instructionPointer := p.instructionPointer + 1 }

/-- Claim C2: executing `[` over a zero cell pushes a skip frame, and as
long as that frame has not been popped, no later instruction mutates any
tape cell, moves the cursor, consumes input or produces output; the
instruction pointer only moves forward, one instruction per step, so the
body is passed over exactly once, and when the frame is popped — by the
matching `]` — the stack is exactly as before the `[` and execution
continues past the `]` with the state otherwise untouched. -/
theorem C2_skipped_loop_inert (p : Processor) (n : Nat)
    (hip : p.instructionPointer < p.instructionBuffer.length)
    (hi : p.instructionBuffer.getD p.instructionPointer 0 = InstLoopStart)
    (hcur : Current p = 0) (hne : p.closures ≠ []) :
    step p = .ok (skipEntry p) ∧
      ((∃ m r, m ≤ n ∧ ExecuteN m (skipEntry p) = .ok r ∧
          r.closures = p.closures ∧ r.data = p.data ∧
          r.dataPointer = p.dataPointer ∧ r.stdin = p.stdin ∧
          r.output = p.output ∧
          r.instructionPointer = p.instructionPointer + 1 + m) ∨
        (∃ r pre2, ExecuteN n (skipEntry p) = .ok r ∧
          r.closures = pre2 ++
            { skip := true, root := false, start := p.instructionPointer }
              :: p.closures ∧
          (∀ c ∈ pre2, c.skip = true) ∧ r.data = p.data ∧
          r.dataPointer = p.dataPointer ∧ r.stdin = p.stdin ∧
          r.output = p.output ∧
          p.instructionPointer + 1 ≤ r.instructionPointer)) := by
  constructor
  · rw [step_loopStart p hi, hcur]
    rfl
  · exact ExecuteN_skip_region n (skipEntry p) []
      { skip := true, root := false, start := p.instructionPointer }
      p.closures rfl (by intro c hc; cases hc) rfl hne hcur

/-- The program `[+.]` freshly loaded: its cell is zero, so the whole
loop body must be passed over without effects. -/
def skipSample : Processor := Load (NewProcessor []) [91, 43, 46, 93]

/-- The state after passing over the skipped loop of `[+.]`: pointer one
past the `]`, stack back to the sentinel, tape and output untouched. -/
def regionExitSample : Processor :=
  { data := List.replicate 1024 0, dataPointer := 0, stdin := [],
    instructionPointer := 4, instructionBuffer := [91, 43, 46, 93],
    closures := [{ skip := false, root := true, start := 0 }], output := [] }

/-- Claim C2 witness: on `[+.]` with a zero cell, the `[` pushes a skip
frame and three inert steps later execution stands past the `]` with
tape, cursor, stack and output exactly as at the start. -/
theorem C2_skipped_loop_inert_witness :
    Current skipSample = 0 ∧
      skipSample.instructionBuffer.getD skipSample.instructionPointer 0
        = InstLoopStart ∧
      step skipSample = .ok (skipEntry skipSample) ∧
      ExecuteN 3 (skipEntry skipSample) = .ok regionExitSample ∧
      regionExitSample.closures = skipSample.closures ∧
      regionExitSample.data = skipSample.data ∧
      regionExitSample.output = skipSample.output ∧
      regionExitSample.instructionPointer = 4 := by
  refine ⟨by decide, by decide, ?_, by decide, by decide, by decide, by decide,
    by decide⟩
  exact (C2_skipped_loop_inert skipSample 4 (by decide) (by decide) (by decide)
    (by decide)).1

/-- Claim C5 amended witness: the loop-free program `+.` terminates. -/
theorem C5_no_loopStart_terminates_witness :
    InstLoopStart ∉ [43, 46] ∧
      ((∃ e, ExecuteN (List.length [43, 46])
          (Load (NewProcessor []) [43, 46]) = .error e) ∨
        (∃ q, ExecuteN (List.length [43, 46])
            (Load (NewProcessor []) [43, 46]) = .ok q ∧
          q.instructionBuffer.length ≤ q.instructionPointer)) := by
  refine ⟨by decide, ?_⟩
  exact C5_no_loopStart_terminates [43, 46] [] (by decide)

end Gobfy
